import Mathlib

/-!
Verification of the batch payout engine: the Store's row-level state
transitions (repository.go), the executor protocol (pool.go), and the
HTTP-facing parameter handling (handlers.go), shallowly embedded as pure
Lean functions and a small-step protocol relation.

Timestamps are modelled as abstract `Nat` ticks; UUIDs as `Nat` ids; SQL
row updates as pure functions on a row record, conditional updates (`WHERE`
clauses) as guarded updates returning whether a row was affected.
-/

namespace PayoutEngine

/-- Payout statuses, from `models` (`pending`, `processing`, `completed`,
`failed`). -/
inductive PStatus where
  | pending
  | processing
  | completed
  | failed
deriving DecidableEq

/-- The closed set of simulated failure codes, from `models`. -/
inductive FailureCode where
  | invalidBankAccount
  | insufficientFunds
  | bankTimeout
  | accountBlocked
  | rateLimited
deriving DecidableEq

/-- `models.IsRetryable`: BANK_API_TIMEOUT, RATE_LIMITED and
INSUFFICIENT_FUNDS are transient; everything else is permanent. -/
def FailureCode.isRetryable : FailureCode → Bool
  | .bankTimeout => true
  | .rateLimited => true
  | .insufficientFunds => true
  | .invalidBankAccount => false
  | .accountBlocked => false

/-- The mutable columns of one `payouts` row (001_init.sql).  The immutable
attributes (vendor, amount, ...) play no role in the state machine and are
omitted; `pid` stands for the row's UUID. -/
structure Payout where
  pid : Nat
  status : PStatus
  failureReason : Option FailureCode
  attemptCount : Nat
  maxRetries : Nat
  attemptedAt : Option Nat
  completedAt : Option Nat
deriving DecidableEq

/-- The SET clause of `ClaimPayout`: status=processing, attempted_at=now,
attempt_count = attempt_count + 1. -/
def claimRow (now : Nat) (p : Payout) : Payout :=
  { p with status := PStatus.processing, attemptedAt := some now,
           attemptCount := p.attemptCount + 1 }

/-- `Repository.ClaimPayout` on its row: the UPDATE is conditional on
`status = 'pending'`; the returned Bool is `RowsAffected() > 0`. -/
def claimPayout (now : Nat) (p : Payout) : Bool × Payout :=
  if p.status = PStatus.pending then (true, claimRow now p) else (false, p)

/-- `Repository.CompletePayout`: unconditionally set status=completed,
completed_at=now. -/
def completePayout (now : Nat) (p : Payout) : Payout :=
  { p with status := PStatus.completed, completedAt := some now }

/-- `Repository.FailPayout`: unconditionally set status=failed,
failure_reason=reason. -/
def failPayout (reason : FailureCode) (p : Payout) : Payout :=
  { p with status := PStatus.failed, failureReason := some reason }

/-- `Repository.RequeuePayout` on its row: set status=pending and clear
failure_reason, conditional on `attempt_count < max_retries`. -/
def requeuePayout (p : Payout) : Payout :=
  if p.attemptCount < p.maxRetries then
    { p with status := PStatus.pending, failureReason := none }
  else p

/-- `Repository.ResetStuckProcessing` on one row: rows with
`status = 'processing' AND attempt_count < max_retries` go back to pending. -/
def resetStuckRow (p : Payout) : Payout :=
  if p.status = PStatus.processing ∧ p.attemptCount < p.maxRetries then
    { p with status := PStatus.pending }
  else p

/-- `Repository.RetryFailedPayouts` on one row: rows with
`status = 'failed' AND attempt_count < max_retries AND failure_reason IN
(BANK_API_TIMEOUT, RATE_LIMITED, INSUFFICIENT_FUNDS)` go back to pending
with the reason cleared. -/
def retryFailedRow (p : Payout) : Payout :=
  if p.status = PStatus.failed ∧ p.attemptCount < p.maxRetries ∧
     (match p.failureReason with
      | some c => c.isRetryable
      | none => false) = true then
    { p with status := PStatus.pending, failureReason := none }
  else p

/-- A sequence of `ClaimPayout` calls on the same row.  Postgres serializes
the row-level conditional updates, so any set of concurrent calls is
observed as some sequential order; `times` gives each call's clock value. -/
def claimMany : List Nat → Payout → List Bool × Payout
  | [], p => ([], p)
  | t :: ts, p =>
    let r := claimPayout t p
    let rest := claimMany ts r.2
    (r.1 :: rest.1, rest.2)

theorem claimMany_not_pending (times : List Nat) (p : Payout)
    (h : ¬ p.status = PStatus.pending) :
    claimMany times p = (List.replicate times.length false, p) := by
  induction times with
  | nil => rfl
  | cons t ts ih => simp [claimMany, claimPayout, h, ih, List.replicate_succ]

/-- C1: `ClaimPayout` returns true iff the payout is pending; on success it
sets status=processing, attempted_at=now and increments attempt_count by
exactly one; on failure it leaves the row unchanged; and of any sequence of
serialized claim calls on a pending row exactly one returns true (none when
the row is not pending). -/
theorem claimPayout_spec (now : Nat) (p : Payout) :
    ((claimPayout now p).1 = true ↔ p.status = PStatus.pending)
    ∧ (p.status = PStatus.pending →
        (claimPayout now p).2 =
          { p with status := PStatus.processing, attemptedAt := some now,
                   attemptCount := p.attemptCount + 1 })
    ∧ (¬ p.status = PStatus.pending → (claimPayout now p).2 = p)
    ∧ (∀ times : List Nat, p.status = PStatus.pending →
        (claimMany times p).1.count true = min 1 times.length)
    ∧ (∀ times : List Nat, ¬ p.status = PStatus.pending →
        (claimMany times p).1.count true = 0) := by
  refine ⟨?_, ?_, ?_, ?_, ?_⟩
  · constructor
    · intro h
      by_contra hp
      simp [claimPayout, hp] at h
    · intro h
      simp [claimPayout, h]
  · intro h
    simp [claimPayout, h, claimRow]
  · intro h
    simp [claimPayout, h]
  · intro times h
    cases times with
    | nil => rfl
    | cons t ts =>
      have hstep : claimPayout t p = (true, claimRow t p) := by
        simp [claimPayout, h]
      have hproc : ¬ (claimRow t p).status = PStatus.pending := by
        simp [claimRow]
      simp [claimMany, hstep, claimMany_not_pending ts _ hproc,
            List.count_replicate]
  · intro times h
    simp [claimMany_not_pending times p h, List.count_replicate]

/-- A concrete pending payout used to instantiate the hypotheses of the
claim theorems. -/
def samplePending : Payout :=
  { pid := 1, status := PStatus.pending, failureReason := none,
    attemptCount := 0, maxRetries := 3, attemptedAt := none,
    completedAt := none }

theorem claimPayout_spec_witness :
    (claimMany [5, 6, 7] samplePending).1.count true =
      min 1 ([5, 6, 7] : List Nat).length :=
  (claimPayout_spec 5 samplePending).2.2.2.1 [5, 6, 7] (by decide)

/-- The outcome of one Transfer Client call (`service.SimulateBankTransfer`):
success, or a failure code whose retryable bit is `FailureCode.isRetryable`. -/
inductive XferResult where
  | success
  | failure (code : FailureCode)
deriving DecidableEq

/-- `processSinglePayout` steps 3-5: commit the transfer outcome through the
Store.  `snap` is the worker's snapshot of the row as returned by
`GetPendingPayouts` (the code reads `payout.AttemptCount` and
`payout.MaxRetries` from it): success commits `CompletePayout`; a retryable
failure with `payout.AttemptCount+1 < payout.MaxRetries` commits
`RequeuePayout`; anything else commits `FailPayout` with the code as
reason. -/
def commitOutcome (now : Nat) (snap : Payout) (r : XferResult) (row : Payout) : Payout :=
  match r with
  | .success => completePayout now row
  | .failure code =>
    if code.isRetryable = true ∧ snap.attemptCount + 1 < snap.maxRetries then
      requeuePayout row
    else
      failPayout code row

/-- One attempt audit record as built by `processSinglePayout`:
`AttemptNum = payout.AttemptCount + 1` from the pulled snapshot, status
completed on success and failed otherwise (`ok` says whether the status is
completed). -/
structure AttemptRec where
  attemptNum : Nat
  ok : Bool
deriving DecidableEq

def mkAttempt (snap : Payout) (r : XferResult) : AttemptRec :=
  { attemptNum := snap.attemptCount + 1,
    ok := match r with | .success => true | .failure _ => false }

/-- The protocol state of a single payout: its Store row, the snapshot held
by the worker currently owning a successful claim on it (if any), and the
attempt records logged so far. -/
structure PState where
  row : Payout
  inflight : Option Payout
  attempts : List AttemptRec
deriving DecidableEq

/-- One step of the executor protocol on a single payout, as the operations
are invoked by `ProcessBatch`, `processSinglePayout` and the `RetryFailed`
handler.

* `claim`: a worker holds the pulled row (pending) and `ClaimPayout`
  succeeds.  Chunks are pulled sequentially (`processChunk` drains before
  the next `GetPendingPayouts`) and a row occurs at most once per chunk, so
  at most one worker at a time sits between pull and outcome commit for a
  given row: hence the `inflight = none` guard.
* `commit`: the claim holder's transfer call returns and it commits the
  outcome and logs the attempt record.
* `crash`: the process dies between claim and commit: the worker vanishes,
  leaving the row in processing with nothing committed or logged.
* `reset`: `ResetStuckProcessing`, invoked only at the start of
  `ProcessBatch`; the `running` compare-and-swap and the per-chunk
  WaitGroup guarantee no worker is in flight then.
* `retry`: `RetryFailedPayouts` from the HTTP handler, possible at any
  time. -/
inductive Step : PState → PState → Prop where
  | claim (s : PState) (now : Nat)
      (hrow : s.row.status = PStatus.pending) (hf : s.inflight = none) :
      Step s { row := claimRow now s.row, inflight := some s.row,
               attempts := s.attempts }
  | commit (s : PState) (now : Nat) (snap : Payout) (r : XferResult)
      (hf : s.inflight = some snap) :
      Step s { row := commitOutcome now snap r s.row, inflight := none,
               attempts := s.attempts ++ [mkAttempt snap r] }
  | crash (s : PState) (snap : Payout) (hf : s.inflight = some snap) :
      Step s { s with inflight := none }
  | reset (s : PState) (hf : s.inflight = none) :
      Step s { s with row := resetStuckRow s.row }
  | retry (s : PState) :
      Step s { s with row := retryFailedRow s.row }

/-- States of one payout reachable from `init` by the executor protocol. -/
inductive Reachable (init : PState) : PState → Prop where
  | refl : Reachable init init
  | step {s s' : PState} : Reachable init s → Step s s' → Reachable init s'

/-- A payout as inserted by `CreateBatch`: status pending, attempt_count 0,
failure_reason null (001_init.sql defaults), max_retries `m` (the schema
default is 3 and `CreateBatch` never overrides it). -/
def initPayout (pid m : Nat) : Payout :=
  { pid := pid, status := PStatus.pending, failureReason := none,
    attemptCount := 0, maxRetries := m, attemptedAt := none,
    completedAt := none }

def initState (pid m : Nat) : PState :=
  { row := initPayout pid m, inflight := none, attempts := [] }

/-- Number of logged attempt records with status completed. -/
def completedAttempts (s : PState) : Nat := s.attempts.countP (fun a => a.ok)

theorem resetStuckRow_completed_iff (p : Payout) :
    (resetStuckRow p).status = PStatus.completed ↔
      p.status = PStatus.completed := by
  by_cases h : p.status = PStatus.processing ∧ p.attemptCount < p.maxRetries
  · simp [resetStuckRow, h, h.1]
  · simp [resetStuckRow, h]

theorem retryFailedRow_completed_iff (p : Payout) :
    (retryFailedRow p).status = PStatus.completed ↔
      p.status = PStatus.completed := by
  unfold retryFailedRow
  by_cases h : p.status = PStatus.failed ∧ p.attemptCount < p.maxRetries ∧
      (match p.failureReason with
       | some c => c.isRetryable
       | none => false) = true
  · simp [h, h.1]
  · simp [h]

theorem retryFailedRow_of_not_failed (p : Payout)
    (h : ¬ p.status = PStatus.failed) : retryFailedRow p = p := by
  unfold retryFailedRow
  rw [if_neg]
  intro hc
  exact h hc.1

/-- The inductive invariant carrying C2: a claim holder's snapshot is the
pre-claim row (so the row is processing, one attempt ahead of the
snapshot), and the attempt log holds exactly one completed record when the
row is completed and none otherwise. -/
def CompletedInv (s : PState) : Prop :=
  (∀ snap, s.inflight = some snap →
      s.row.status = PStatus.processing
      ∧ s.row.attemptCount = snap.attemptCount + 1
      ∧ s.row.maxRetries = snap.maxRetries)
  ∧ completedAttempts s =
      (if s.row.status = PStatus.completed then 1 else 0)

theorem completedInv_init (pid m : Nat) : CompletedInv (initState pid m) := by
  constructor
  · intro snap hsnap
    simp [initState] at hsnap
  · simp [initState, initPayout, completedAttempts]

theorem completedInv_step {s s' : PState} (h : CompletedInv s)
    (hs : Step s s') : CompletedInv s' := by
  obtain ⟨hlink, hcnt⟩ := h
  cases hs with
  | claim now hrow hf =>
    constructor
    · intro snap hsnap
      simp at hsnap
      subst hsnap
      simp [claimRow]
    · simp [completedAttempts, claimRow] at hcnt ⊢
      rw [hrow] at hcnt
      simpa using hcnt
  | commit now snap r hf =>
    have hl := hlink snap hf
    constructor
    · intro snap2 hsnap2
      simp at hsnap2
    · have hpre : completedAttempts s = 0 := by
        rw [hcnt, if_neg]
        rw [hl.1]
        intro hcontr
        cases hcontr
      cases r with
      | success =>
        simp [completedAttempts, List.countP_append, mkAttempt,
              commitOutcome, completePayout] at hpre ⊢
        simpa [completedAttempts] using hpre
      | failure code =>
        by_cases hb : code.isRetryable = true ∧
            snap.attemptCount + 1 < snap.maxRetries
        · have hreq : (requeuePayout s.row).status = PStatus.pending ∨
              (requeuePayout s.row).status = s.row.status := by
            unfold requeuePayout
            by_cases hc : s.row.attemptCount < s.row.maxRetries
            · simp [hc]
            · simp [hc]
          simp [completedAttempts, List.countP_append, mkAttempt,
                commitOutcome, hb] at hpre ⊢
          rcases hreq with hq | hq
          · rw [hq, if_neg]
            · simpa [completedAttempts] using hpre
            · intro hcontr
              cases hcontr
          · rw [hq, hl.1, if_neg]
            · simpa [completedAttempts] using hpre
            · intro hcontr
              cases hcontr
        · simp [completedAttempts, List.countP_append, mkAttempt,
                commitOutcome, hb, failPayout] at hpre ⊢
          simpa [completedAttempts] using hpre
  | crash snap hf =>
    constructor
    · intro snap2 hsnap2
      simp at hsnap2
    · exact hcnt
  | reset hf =>
    constructor
    · intro snap2 hsnap2
      simp [hf] at hsnap2
    · by_cases hc : s.row.status = PStatus.completed
      · have hid : resetStuckRow s.row = s.row := by
          unfold resetStuckRow
          rw [if_neg]
          intro hcontr
          rw [hc] at hcontr
          cases hcontr.1
        simpa [completedAttempts, hid] using hcnt
      · have hnc : ¬ (resetStuckRow s.row).status = PStatus.completed := by
          rw [resetStuckRow_completed_iff]
          exact hc
        have h0 : completedAttempts s = 0 := by
          rw [hcnt, if_neg hc]
        simpa [completedAttempts, if_neg hnc] using h0
  | retry =>
    constructor
    · intro snap2 hsnap2
      have hl := hlink snap2 hsnap2
      have hid : retryFailedRow s.row = s.row := by
        apply retryFailedRow_of_not_failed
        rw [hl.1]
        intro hcontr
        cases hcontr
      rw [hid]
      exact hl
    · by_cases hc : s.row.status = PStatus.completed
      · have hid : retryFailedRow s.row = s.row := by
          apply retryFailedRow_of_not_failed
          rw [hc]
          intro hcontr
          cases hcontr
        simpa [completedAttempts, hid] using hcnt
      · have hnc : ¬ (retryFailedRow s.row).status = PStatus.completed := by
          rw [retryFailedRow_completed_iff]
          exact hc
        have h0 : completedAttempts s = 0 := by
          rw [hcnt, if_neg hc]
        simpa [completedAttempts, if_neg hnc] using h0

theorem completedInv_reachable {pid m : Nat} {s : PState}
    (h : Reachable (initState pid m) s) : CompletedInv s := by
  induction h with
  | refl => exact completedInv_init pid m
  | step hr hs ih => exact completedInv_step ih hs

/-- C2: in every state of a payout reachable from batch creation by the
executor protocol, the attempt log holds at most one record with status
completed, and once the row's status is completed no protocol step changes
it. -/
theorem completed_is_terminal (pid m : Nat) (s : PState)
    (h : Reachable (initState pid m) s) :
    completedAttempts s ≤ 1
    ∧ (∀ s', Step s s' → s.row.status = PStatus.completed →
        s'.row.status = PStatus.completed) := by
  have hinv := completedInv_reachable h
  constructor
  · rw [hinv.2]
    by_cases hc : s.row.status = PStatus.completed
    · simp [hc]
    · simp [hc]
  · intro s' hs hc
    cases hs with
    | claim now hrow hf =>
      rw [hrow] at hc
      cases hc
    | commit now snap r hf =>
      have hl := hinv.1 snap hf
      rw [hl.1] at hc
      cases hc
    | crash snap hf => exact hc
    | reset hf =>
      show (resetStuckRow s.row).status = PStatus.completed
      rw [resetStuckRow_completed_iff]
      exact hc
    | retry =>
      show (retryFailedRow s.row).status = PStatus.completed
      rw [retryFailedRow_completed_iff]
      exact hc

theorem completed_is_terminal_witness :
    completedAttempts (initState 0 3) ≤ 1 :=
  (completed_is_terminal 0 3 (initState 0 3) Reachable.refl).1

/-- The inductive invariant carrying the retry-budget property: a pending
row is strictly within its budget, a claim holder's snapshot is the
pre-claim row, and the count never exceeds the budget. -/
def BudgetInv (s : PState) : Prop :=
  (∀ snap, s.inflight = some snap →
      s.row.status = PStatus.processing
      ∧ s.row.attemptCount = snap.attemptCount + 1
      ∧ s.row.maxRetries = snap.maxRetries)
  ∧ (s.row.status = PStatus.pending →
      s.row.attemptCount < s.row.maxRetries)
  ∧ s.row.attemptCount ≤ s.row.maxRetries

theorem budgetInv_init (pid m : Nat) (hm : 1 ≤ m) :
    BudgetInv (initState pid m) := by
  refine ⟨?_, ?_, ?_⟩
  · intro snap hsnap
    simp [initState] at hsnap
  · intro _
    simpa [initState, initPayout] using hm
  · simp [initState, initPayout]

theorem budgetInv_step {s s' : PState} (h : BudgetInv s) (hs : Step s s') :
    BudgetInv s' := by
  obtain ⟨hlink, hpend, hle⟩ := h
  cases hs with
  | claim now hrow hf =>
    have hlt := hpend hrow
    refine ⟨?_, ?_, ?_⟩
    · intro snap hsnap
      simp at hsnap
      subst hsnap
      simp [claimRow]
    · intro hcontr
      simp [claimRow] at hcontr
    · simpa [claimRow] using hlt
  | commit now snap r hf =>
    have hl := hlink snap hf
    refine ⟨?_, ?_, ?_⟩
    · intro snap2 hsnap2
      simp at hsnap2
    · intro hp
      cases r with
      | success =>
        simp [commitOutcome, completePayout] at hp
      | failure code =>
        simp only [commitOutcome] at hp ⊢
        by_cases hb : code.isRetryable = true ∧
            snap.attemptCount + 1 < snap.maxRetries
        · rw [if_pos hb] at hp ⊢
          unfold requeuePayout at hp ⊢
          by_cases hc : s.row.attemptCount < s.row.maxRetries
          · simp [hc]
          · rw [if_neg hc] at hp
            rw [hl.1] at hp
            cases hp
        · rw [if_neg hb] at hp
          simp [failPayout] at hp
    · cases r with
      | success =>
        simpa [commitOutcome, completePayout] using hle
      | failure code =>
        simp only [commitOutcome]
        by_cases hb : code.isRetryable = true ∧
            snap.attemptCount + 1 < snap.maxRetries
        · rw [if_pos hb]
          unfold requeuePayout
          by_cases hc : s.row.attemptCount < s.row.maxRetries
          · simpa [hc] using hle
          · simpa [hc] using hle
        · rw [if_neg hb]
          simpa [failPayout] using hle
  | crash snap hf =>
    exact ⟨by intro snap2 hsnap2; simp at hsnap2, hpend, hle⟩
  | reset hf =>
    refine ⟨?_, ?_, ?_⟩
    · intro snap2 hsnap2
      simp [hf] at hsnap2
    · intro hp
      unfold resetStuckRow at hp ⊢
      by_cases hc : s.row.status = PStatus.processing ∧
          s.row.attemptCount < s.row.maxRetries
      · simp [hc, hc.2]
      · rw [if_neg hc] at hp ⊢
        exact hpend hp
    · unfold resetStuckRow
      by_cases hc : s.row.status = PStatus.processing ∧
          s.row.attemptCount < s.row.maxRetries
      · simpa [hc] using hle
      · simpa [hc] using hle
  | retry =>
    refine ⟨?_, ?_, ?_⟩
    · intro snap2 hsnap2
      have hl := hlink snap2 hsnap2
      have hid : retryFailedRow s.row = s.row := by
        apply retryFailedRow_of_not_failed
        rw [hl.1]
        intro hcontr
        cases hcontr
      rw [hid]
      exact hl
    · intro hp
      unfold retryFailedRow at hp ⊢
      by_cases hc : s.row.status = PStatus.failed ∧
          s.row.attemptCount < s.row.maxRetries ∧
          (match s.row.failureReason with
           | some c => c.isRetryable
           | none => false) = true
      · simp [hc, hc.2.1]
      · rw [if_neg hc] at hp ⊢
        exact hpend hp
    · unfold retryFailedRow
      by_cases hc : s.row.status = PStatus.failed ∧
          s.row.attemptCount < s.row.maxRetries ∧
          (match s.row.failureReason with
           | some c => c.isRetryable
           | none => false) = true
      · simpa [hc] using hle
      · simpa [hc] using hle

theorem budgetInv_reachable {pid m : Nat} {s : PState} (hm : 1 ≤ m)
    (h : Reachable (initState pid m) s) : BudgetInv s := by
  induction h with
  | refl => exact budgetInv_init pid m hm
  | step hr hs ih => exact budgetInv_step ih hs

/-- The protocol state reached from a fresh payout with max_retries = 0 by
one successful claim. -/
def overBudgetState : PState :=
  { row := claimRow 7 (initPayout 0 0), inflight := some (initPayout 0 0),
    attempts := [] }

/-- C3 as frozen is false at the boundary max_retries = 0 it quantifies
over: from a payout created pending with attempt_count = 0 and
max_retries = 0, one `ClaimPayout` (reachable by the executor protocol)
raises attempt_count to 1 > 0 = max_retries. -/
theorem attemptCount_le_maxRetries_counterexample :
    Reachable (initState 0 0) overBudgetState
    ∧ ¬ overBudgetState.row.attemptCount ≤ overBudgetState.row.maxRetries := by
  constructor
  · exact Reachable.step Reachable.refl
      (Step.claim (initState 0 0) 7 rfl rfl)
  · decide

/-- C3 amended: for every payout created with max_retries ≥ 1 (the code
always creates with the schema default 3) and attempt_count = 0, in every
state reachable by the executor protocol, attempt_count ≤ max_retries. -/
theorem attemptCount_le_maxRetries (pid m : Nat) (hm : 1 ≤ m) (s : PState)
    (h : Reachable (initState pid m) s) :
    s.row.attemptCount ≤ s.row.maxRetries :=
  (budgetInv_reachable hm h).2.2

theorem attemptCount_le_maxRetries_witness :
    (initState 0 3).row.attemptCount ≤ (initState 0 3).row.maxRetries :=
  attemptCount_le_maxRetries 0 3 (by decide) (initState 0 3) Reachable.refl

/-- One item of a create-batch request (`models.CreatePayoutItem`).  Only
vendor_id enters a storage constraint; the remaining columns (name,
currency, bank data, transaction ids) ride along unconstrained and are
summarized by `amount`. -/
structure CreateItem where
  vendorId : String
  amount : Int
deriving DecidableEq

/-- A `payouts` row as `CreateBatch` inserts it, restricted to the columns
entering the UNIQUE constraint. -/
structure PayoutRow where
  idempotencyKey : String
  vendorId : String
  batchId : Nat
deriving DecidableEq

/-- A `payout_batches` row as `CreateBatch` inserts it. -/
structure BatchInsertRow where
  batchId : Nat
  totalCount : Nat
deriving DecidableEq

/-- The two tables `CreateBatch` writes. -/
structure Store where
  batches : List BatchInsertRow
  payouts : List PayoutRow
deriving DecidableEq

/-- `fmt.Sprintf("%s:%s", item.VendorID, batchID.String())`. -/
def payoutKey (vendorId : String) (batchId : Nat) : String :=
  vendorId ++ ":" ++ toString batchId

/-- One `INSERT INTO payouts` under the `UNIQUE (idempotency_key)`
constraint of 001_init.sql: the statement errors when the key is already
present in the transaction's view. -/
def insertPayoutRow (s : Store) (row : PayoutRow) : Option Store :=
  if row.idempotencyKey ∈ s.payouts.map (fun q => q.idempotencyKey) then none
  else some { s with payouts := s.payouts ++ [row] }

/-- The payout-insert loop of `CreateBatch`: the first failing insert aborts
the whole transaction (`if err != nil { return nil, ... }`). -/
def insertItems (batchId : Nat) : Store → List CreateItem → Option Store
  | s, [] => some s
  | s, it :: rest =>
    (insertPayoutRow s
        { idempotencyKey := payoutKey it.vendorId batchId,
          vendorId := it.vendorId, batchId := batchId }).bind
      (fun s1 => insertItems batchId s1 rest)

/-- `Repository.CreateBatch`: inside one transaction, insert the batch row
(its id is a fresh UUID, so the primary key cannot collide) and then every
payout; `none` is the error return, after which the deferred
`tx.Rollback()` discards all writes. -/
def createBatch (s : Store) (batchId : Nat) (items : List CreateItem) :
    Option Store :=
  insertItems batchId
    { s with batches :=
        s.batches ++ [{ batchId := batchId, totalCount := items.length }] }
    items

/-- The durable store visible once `CreateBatch` has returned: the committed
transaction on success, the rolled-back original on error. -/
def runCreateBatch (s : Store) (batchId : Nat) (items : List CreateItem) :
    Store :=
  match createBatch s batchId items with
  | some s1 => s1
  | none => s

/-- The idempotency keys the items of one request map to. -/
def itemKeys (batchId : Nat) (items : List CreateItem) : List String :=
  items.map (fun it => payoutKey it.vendorId batchId)

theorem insertPayoutRow_eq_some {s s1 : Store} {row : PayoutRow}
    (h : insertPayoutRow s row = some s1) :
    row.idempotencyKey ∉ s.payouts.map (fun q => q.idempotencyKey)
    ∧ s1 = { s with payouts := s.payouts ++ [row] } := by
  unfold insertPayoutRow at h
  by_cases hmem : row.idempotencyKey ∈ s.payouts.map (fun q => q.idempotencyKey)
  · rw [if_pos hmem] at h
    cases h
  · rw [if_neg hmem] at h
    exact ⟨hmem, (Option.some_inj.mp h).symm⟩

theorem insertItems_ok_absent (batchId : Nat) (items : List CreateItem) :
    ∀ (s s2 : Store), insertItems batchId s items = some s2 →
      ∀ k ∈ itemKeys batchId items,
        k ∉ s.payouts.map (fun q => q.idempotencyKey) := by
  induction items with
  | nil =>
    intro s s2 h k hk
    simp [itemKeys] at hk
  | cons it rest ih =>
    intro s s2 h k hk
    rw [show insertItems batchId s (it :: rest) =
        (insertPayoutRow s
          { idempotencyKey := payoutKey it.vendorId batchId,
            vendorId := it.vendorId, batchId := batchId }).bind
          (fun s1 => insertItems batchId s1 rest) from rfl,
        Option.bind_eq_some] at h
    obtain ⟨s1, hins, hrest⟩ := h
    obtain ⟨hmem, hs1⟩ := insertPayoutRow_eq_some hins
    have hk1 : k ∈ payoutKey it.vendorId batchId :: itemKeys batchId rest := hk
    rcases List.mem_cons.mp hk1 with hk0 | hkr
    · subst hk0
      exact hmem
    · have habs := ih s1 s2 hrest k hkr
      rw [hs1] at habs
      intro hks
      apply habs
      simp only [List.map_append, List.mem_append]
      exact Or.inl hks

theorem insertItems_ok_nodup (batchId : Nat) (items : List CreateItem) :
    ∀ (s s2 : Store), insertItems batchId s items = some s2 →
      (itemKeys batchId items).Nodup := by
  induction items with
  | nil =>
    intro s s2 h
    simp [itemKeys]
  | cons it rest ih =>
    intro s s2 h
    rw [show insertItems batchId s (it :: rest) =
        (insertPayoutRow s
          { idempotencyKey := payoutKey it.vendorId batchId,
            vendorId := it.vendorId, batchId := batchId }).bind
          (fun s1 => insertItems batchId s1 rest) from rfl,
        Option.bind_eq_some] at h
    obtain ⟨s1, hins, hrest⟩ := h
    obtain ⟨hmem, hs1⟩ := insertPayoutRow_eq_some hins
    rw [show itemKeys batchId (it :: rest) =
          payoutKey it.vendorId batchId :: itemKeys batchId rest from rfl,
        List.nodup_cons]
    constructor
    · intro hk0
      have habs := insertItems_ok_absent batchId rest s1 s2 hrest
        (payoutKey it.vendorId batchId) hk0
      rw [hs1] at habs
      apply habs
      simp
    · exact ih s1 s2 hrest

/-- C4: a create-batch request containing two items with the same vendor_id
fails and writes nothing: both items map to the same idempotency key, the
UNIQUE constraint rejects the second insert inside the single transaction,
and the rollback leaves the store exactly as it was. -/
theorem createBatch_duplicate_vendor (s : Store) (batchId : Nat)
    (items : List CreateItem)
    (hdup : ¬ (items.map (fun it => it.vendorId)).Nodup) :
    createBatch s batchId items = none
    ∧ runCreateBatch s batchId items = s := by
  have hmain : createBatch s batchId items = none := by
    unfold createBatch
    set s1 : Store :=
      { s with batches :=
          s.batches ++ [{ batchId := batchId, totalCount := items.length }] }
    cases hres : insertItems batchId s1 items with
    | none => rfl
    | some s' =>
      exfalso
      have hnod := insertItems_ok_nodup batchId items s1 s' hres
      apply hdup
      have hkeys : itemKeys batchId items =
          (items.map (fun it => it.vendorId)).map
            (fun v => payoutKey v batchId) := by
        simp [itemKeys, List.map_map]
      exact List.Nodup.of_map _ (hkeys ▸ hnod)
  exact ⟨hmain, by unfold runCreateBatch; rw [hmain]⟩

/-- An empty store and a request naming vendor V1 twice. -/
def emptyStore : Store := { batches := [], payouts := [] }

def dupVendorItems : List CreateItem :=
  [{ vendorId := "V1", amount := 100 }, { vendorId := "V1", amount := 200 }]

theorem createBatch_duplicate_vendor_witness :
    createBatch emptyStore 0 dupVendorItems = none
    ∧ runCreateBatch emptyStore 0 dupVendorItems = emptyStore :=
  createBatch_duplicate_vendor emptyStore 0 dupVendorItems (by decide)

/-- Batch statuses, from `models`. -/
inductive BStatus where
  | pending
  | inProgress
  | completed
  | failed
  | partiallyCompleted
deriving DecidableEq

/-- The columns of one `payout_batches` row that `UpdateBatchStatus`
touches; the cached counter columns, which no claim reads, are omitted. -/
structure BatchRow where
  status : BStatus
  startedAt : Option Nat
  completedAt : Option Nat
  updatedAt : Nat
deriving DecidableEq

/-- `Repository.UpdateBatchStatus`: the query is chosen by the target
status; entering in_progress also sets started_at = now, entering a
terminal status also sets completed_at = now, every variant sets
updated_at = now, and all writes are unconditional. -/
def updateBatchStatus (now : Nat) (b : BatchRow) (st : BStatus) : BatchRow :=
  match st with
  | BStatus.inProgress =>
    { b with status := st, startedAt := some now, updatedAt := now }
  | BStatus.completed | BStatus.partiallyCompleted | BStatus.failed =>
    { b with status := st, completedAt := some now, updatedAt := now }
  | BStatus.pending => { b with status := st, updatedAt := now }

theorem updateBatchStatus_status (now : Nat) (b : BatchRow) (st : BStatus) :
    (updateBatchStatus now b st).status = st := by
  cases st <;> rfl

/-- Step 4 of `ProcessBatch`: the switch over the live statistics choosing
the terminal batch status. -/
def finalStatus (completed failed : Nat) : BStatus :=
  if failed = 0 then BStatus.completed
  else if completed = 0 then BStatus.failed
  else BStatus.partiallyCompleted

/-- One batch with its payout rows: the slice of the store `ProcessBatch`
reads and writes. -/
structure BatchDB where
  batch : BatchRow
  payouts : List Payout
deriving DecidableEq

/-- `ResetStuckProcessing` over the whole batch: one UPDATE touching every
stuck row. -/
def resetStuckDB (db : BatchDB) : BatchDB :=
  { db with payouts := db.payouts.map resetStuckRow }

/-- `GetPendingPayouts`: rows with status pending, in created_at order
(modelled by list order), limited to `limit`. -/
def getPendingPayouts (db : BatchDB) (limit : Nat) : List Payout :=
  (db.payouts.filter (fun p => decide (p.status = PStatus.pending))).take limit

/-- An `UPDATE ... WHERE id = pid` applying `f` to the matching row. -/
def updateRow (db : BatchDB) (pid : Nat) (f : Payout → Payout) : BatchDB :=
  { db with payouts := db.payouts.map (fun p => if p.pid = pid then f p else p) }

/-- `ClaimPayout` against the store: the UPDATE matches
`id = pid AND status = 'pending'`; the Bool is `RowsAffected() > 0`. -/
def claimPayoutDB (now : Nat) (db : BatchDB) (pid : Nat) : Bool × BatchDB :=
  (db.payouts.any (fun p => decide (p.pid = pid ∧ p.status = PStatus.pending)),
   { db with payouts := db.payouts.map (fun p =>
       if p.pid = pid ∧ p.status = PStatus.pending then claimRow now p else p) })

/-- `processSinglePayout` against the store: claim the row; on success run
the transfer and commit the outcome decided from the pulled snapshot `po`;
on a failed claim return silently. -/
def processSinglePayoutDB (now : Nat) (db : BatchDB) (po : Payout)
    (r : XferResult) : BatchDB :=
  let c := claimPayoutDB now db po.pid
  if c.1 then updateRow c.2 po.pid (commitOutcome now po r) else c.2

/-- Which case of the select at the top of `processChunk`'s loop body runs
for the current stop/cancel state. -/
inductive SelectBranch where
  | stopCase
  | cancelCase
  | defaultCase
deriving DecidableEq

def chunkSelect (stopClosed cancelled : Bool) : SelectBranch :=
  if stopClosed then SelectBranch.stopCase
  else if cancelled then SelectBranch.cancelCase
  else SelectBranch.defaultCase

/-- The items `processChunk` dispatches to workers.  In Go, `break` inside
a `select` case terminates the select statement, not the enclosing `for`
loop, so whichever branch of the select runs, control falls through to
`wg.Add(1)` and the goroutine launch: every item of the chunk is
dispatched. -/
def dispatchChunk (stopClosed cancelled : Bool) : List Payout → List Payout
  | [] => []
  | po :: rest =>
    match chunkSelect stopClosed cancelled with
    | SelectBranch.stopCase => po :: dispatchChunk stopClosed cancelled rest
    | SelectBranch.cancelCase => po :: dispatchChunk stopClosed cancelled rest
    | SelectBranch.defaultCase => po :: dispatchChunk stopClosed cancelled rest

/-- The dispatched workers' store effects, sequentialized: within one chunk
each row occurs at most once and claims are row-exclusive, so every
interleaving of the per-row commits equals their sequential composition.
`oracle i` is the i-th dispatched transfer's outcome. -/
def runWorkers (now : Nat) :
    BatchDB → List Payout → (Nat → XferResult) → Nat → BatchDB × Nat
  | db, [], _, idx => (db, idx)
  | db, po :: rest, oracle, idx =>
    runWorkers now (processSinglePayoutDB now db po (oracle idx)) rest oracle
      (idx + 1)

/-- `processChunk`: dispatch (all items, see `dispatchChunk`) and drain
(`wg.Wait()` — every dispatched worker's effect is included before the
function returns). -/
def processChunkDB (stopClosed cancelled : Bool) (now : Nat) (db : BatchDB)
    (chunk : List Payout) (oracle : Nat → XferResult) (idx : Nat) :
    BatchDB × Nat :=
  runWorkers now db (dispatchChunk stopClosed cancelled chunk) oracle idx

/-- The in-process executor state: the atomic `running` flag and whether
`stopCh` has been closed.  `NewPool` allocates the channel once; nothing
ever re-creates it. -/
structure Pool where
  running : Bool
  stopClosed : Bool
deriving DecidableEq

/-- `NewPool`: fresh stop channel, not running. -/
def newPool : Pool := { running := false, stopClosed := false }

/-- `Pool.Stop`: `if p.running.Load() { close(p.stopCh) }`.  Closing an
already-closed Go channel panics at run time; the panic is modelled as
`Except.error`. -/
def stopPool (p : Pool) : Except String Pool :=
  if p.running then
    if p.stopClosed then Except.error "close of closed channel"
    else Except.ok { p with stopClosed := true }
  else Except.ok p

/-- `GetBatchStatistics`'s completed / failed counts. -/
def completedCount (db : BatchDB) : Nat :=
  db.payouts.countP (fun p => decide (p.status = PStatus.completed))

def failedCount (db : BatchDB) : Nat :=
  db.payouts.countP (fun p => decide (p.status = PStatus.failed))

/-- Step 3 of `ProcessBatch`: the chunked pull loop.  The Bool of the
result reports an early exit (stop signal or cancellation — fuel
exhaustion is conservatively reported the same way) as opposed to the loop
breaking because no pending payouts remain. -/
def pullLoop (pool : Pool) (cancelled : Bool) (chunkSize now : Nat)
    (oracle : Nat → XferResult) : Nat → BatchDB → Nat → BatchDB × Nat × Bool
  | 0, db, idx => (db, idx, true)
  | fuel + 1, db, idx =>
    if pool.stopClosed then (db, idx, true)
    else if cancelled then (db, idx, true)
    else
      let chunk := getPendingPayouts db chunkSize
      if chunk.isEmpty then (db, idx, false)
      else
        let r := processChunkDB pool.stopClosed cancelled now db chunk oracle idx
        pullLoop pool cancelled chunkSize now oracle fuel r.1 r.2

/-- `Pool.ProcessBatch`: the `running` compare-and-swap guard, crash
recovery (`ResetStuckProcessing`), the in_progress transition, the pull
loop, and terminal classification.  On an early loop exit the function
returns before step 4, leaving the batch row as the loop left it.  The
best-effort `RefreshBatchCounts` calls touch only the cached counter
columns, which no claim reads, and are omitted. -/
def processBatch (fuel : Nat) (pool : Pool) (cancelled : Bool)
    (now chunkSize : Nat) (oracle : Nat → XferResult) (db : BatchDB) :
    Pool × BatchDB :=
  if pool.running then (pool, db)
  else
    let pool1 : Pool := { pool with running := true }
    let db1 := resetStuckDB db
    let db2 :=
      { db1 with batch := updateBatchStatus now db1.batch BStatus.inProgress }
    let r := pullLoop pool1 cancelled chunkSize now oracle fuel db2 0
    if r.2.2 then ({ pool1 with running := false }, r.1)
    else
      let st := finalStatus (completedCount r.1) (failedCount r.1)
      let db3 := { r.1 with batch := updateBatchStatus now r.1.batch st }
      ({ pool1 with running := false }, db3)

/-- C6 fails on the code: the select at the top of `processChunk`'s loop
body is dead code, because its `break` statements terminate the select and
not the `for` loop, so even with the stop signal raised before the first
item every item of the chunk is dispatched — while the claim says no item
at or after the stop position is.  The first conjunct evaluates the loop
at a concrete stopped chunk; the second shows the dispatched list always
equals the whole chunk. -/
theorem dispatchChunk_ignores_stop :
    dispatchChunk true false [samplePending, samplePending] =
      [samplePending, samplePending]
    ∧ (∀ (stopClosed cancelled : Bool) (chunk : List Payout),
        dispatchChunk stopClosed cancelled chunk = chunk) := by
  constructor
  · rfl
  · intro sc cc chunk
    induction chunk with
    | nil => rfl
    | cons po rest ih =>
      cases hsel : chunkSelect sc cc <;> simp [dispatchChunk, hsel, ih]

/-- The pool as `Stop` leaves it after the interrupted run has returned:
`running` is back to false but the stop channel stays closed, since nothing
ever re-creates it. -/
def stoppedPool : Pool := { running := false, stopClosed := true }

/-- A batch a stopped run left behind: status in_progress, one payout
completed, one still pending. -/
def resumeDb : BatchDB :=
  { batch := { status := BStatus.inProgress, startedAt := some 0,
               completedAt := none, updatedAt := 0 },
    payouts :=
      [{ pid := 1, status := PStatus.completed, failureReason := none,
         attemptCount := 1, maxRetries := 3, attemptedAt := some 0,
         completedAt := some 0 },
       { pid := 2, status := PStatus.pending, failureReason := none,
         attemptCount := 0, maxRetries := 3, attemptedAt := none,
         completedAt := none }] }

/-- C5's first half holds (on a stop exit the batch stays in_progress) but
its second half fails on the code: after a `Stop`, `stopCh` remains closed
forever, so a later `ProcessBatch` on the same Pool re-runs crash recovery
and the in_progress transition and then exits the pull loop at its first
iteration — the remaining pending payout is never processed and the batch
never reaches a terminal status.  The same store driven by a fresh Pool
(conjuncts three and four) completes, showing what the claim expected. -/
theorem processBatch_after_stop_never_resumes :
    (processBatch 10 stoppedPool false 1 100 (fun _ => XferResult.success)
        resumeDb).2.batch.status = BStatus.inProgress
    ∧ (processBatch 10 stoppedPool false 1 100 (fun _ => XferResult.success)
        resumeDb).2.payouts.countP
          (fun p => decide (p.status = PStatus.pending)) = 1
    ∧ (processBatch 10 newPool false 1 100 (fun _ => XferResult.success)
        resumeDb).2.batch.status = BStatus.completed
    ∧ (processBatch 10 newPool false 1 100 (fun _ => XferResult.success)
        resumeDb).2.payouts.countP
          (fun p => decide (p.status = PStatus.pending)) = 0 := by
  refine ⟨by decide, by decide, by decide, by decide⟩

/-- The store after `ProcessBatch` steps 1-2: crash recovery
(`ResetStuckProcessing`) followed by the in_progress transition. -/
def afterRecovery (now : Nat) (db : BatchDB) : BatchDB :=
  { resetStuckDB db with
      batch := updateBatchStatus now (resetStuckDB db).batch
        BStatus.inProgress }

/-- The pull loop's outcome within a `ProcessBatch` run: the store as the
loop left it, the next oracle index, and the early-exit flag. -/
def loopResult (fuel : Nat) (pool : Pool) (cancelled : Bool)
    (now chunkSize : Nat) (oracle : Nat → XferResult) (db : BatchDB) :
    BatchDB × Nat × Bool :=
  pullLoop { pool with running := true } cancelled chunkSize now oracle fuel
    (afterRecovery now db) 0

/-- When the pull loop reports a normal exit (flag false), the store it
returns has no pending chunk left: the loop only breaks with `false` when
`GetPendingPayouts` comes back empty. -/
theorem pullLoop_done_no_pending (pool : Pool) (cancelled : Bool)
    (chunkSize now : Nat) (oracle : Nat → XferResult) :
    ∀ (fuel : Nat) (db : BatchDB) (idx : Nat),
      (pullLoop pool cancelled chunkSize now oracle fuel db idx).2.2 = false →
      getPendingPayouts
        (pullLoop pool cancelled chunkSize now oracle fuel db idx).1
        chunkSize = [] := by
  intro fuel
  induction fuel with
  | zero =>
    intro db idx h
    simp [pullLoop] at h
  | succ n ih =>
    intro db idx h
    by_cases hs : pool.stopClosed = true
    · simp [pullLoop, hs] at h
    · by_cases hc : cancelled = true
      · simp [pullLoop, hs, hc] at h
      · by_cases he : (getPendingPayouts db chunkSize).isEmpty = true
        · have hstep : pullLoop pool cancelled chunkSize now oracle (n + 1)
              db idx = (db, idx, false) := by
            simp [pullLoop, hs, hc, he]
          rw [hstep]
          exact List.isEmpty_iff.mp he
        · have hstep : pullLoop pool cancelled chunkSize now oracle (n + 1)
              db idx =
              pullLoop pool cancelled chunkSize now oracle n
                (processChunkDB pool.stopClosed cancelled now db
                  (getPendingPayouts db chunkSize) oracle idx).1
                (processChunkDB pool.stopClosed cancelled now db
                  (getPendingPayouts db chunkSize) oracle idx).2 := by
            simp [pullLoop, hs, hc, he]
          rw [hstep] at h ⊢
          exact ih _ _ h

/-- C7: for every run of `ProcessBatch` whose pull loop ends because no
pending payouts remain (early-exit flag false — which indeed means the
store the loop left has no pending chunk, conjunct two), the status
written to the batch is `finalStatus` of the live statistics read after
the loop; and `finalStatus` classifies exactly as claimed: failed = 0
gives completed; completed = 0 with failed > 0 gives failed; both positive
gives partially_completed. -/
theorem processBatch_terminal_classification (fuel : Nat) (pool : Pool)
    (cancelled : Bool) (now chunkSize : Nat) (oracle : Nat → XferResult)
    (db : BatchDB) (hrun : pool.running = false)
    (hdone : (loopResult fuel pool cancelled now chunkSize oracle db).2.2
      = false) :
    (processBatch fuel pool cancelled now chunkSize oracle db).2.batch.status
      = finalStatus
          (completedCount
            (loopResult fuel pool cancelled now chunkSize oracle db).1)
          (failedCount
            (loopResult fuel pool cancelled now chunkSize oracle db).1)
    ∧ (1 ≤ chunkSize →
        ∀ p ∈ (loopResult fuel pool cancelled now chunkSize oracle
            db).1.payouts,
          ¬ p.status = PStatus.pending)
    ∧ (∀ c f : Nat,
        (f = 0 → finalStatus c f = BStatus.completed)
        ∧ (c = 0 ∧ 0 < f → finalStatus c f = BStatus.failed)
        ∧ (0 < c ∧ 0 < f → finalStatus c f = BStatus.partiallyCompleted)) := by
  refine ⟨?_, ?_, ?_⟩
  · have hb : processBatch fuel pool cancelled now chunkSize oracle db =
        (if (loopResult fuel pool cancelled now chunkSize oracle db).2.2 then
          ({ running := false, stopClosed := pool.stopClosed },
           (loopResult fuel pool cancelled now chunkSize oracle db).1)
        else
          ({ running := false, stopClosed := pool.stopClosed },
           { (loopResult fuel pool cancelled now chunkSize oracle db).1 with
               batch := updateBatchStatus now
                 (loopResult fuel pool cancelled now chunkSize oracle
                   db).1.batch
                 (finalStatus
                   (completedCount
                     (loopResult fuel pool cancelled now chunkSize oracle
                       db).1)
                   (failedCount
                     (loopResult fuel pool cancelled now chunkSize oracle
                       db).1)) })) := by
      unfold processBatch
      rw [if_neg (by simp [hrun])]
      rfl
    rw [hb, if_neg (by simp [hdone])]
    exact updateBatchStatus_status now _ _
  · intro hcs p hp
    have hemp : getPendingPayouts
        (loopResult fuel pool cancelled now chunkSize oracle db).1
        chunkSize = [] :=
      pullLoop_done_no_pending { pool with running := true } cancelled
        chunkSize now oracle fuel (afterRecovery now db) 0 hdone
    unfold getPendingPayouts at hemp
    rcases List.take_eq_nil_iff.mp hemp with h0 | hfil
    · omega
    · have hnp := List.filter_eq_nil_iff.mp hfil p hp
      simpa using hnp
  · intro c f
    refine ⟨?_, ?_, ?_⟩
    · intro hf
      simp [finalStatus, hf]
    · intro hcf
      have hf : ¬ f = 0 := by omega
      simp [finalStatus, hf, hcf.1]
    · intro hcf
      have hf : ¬ f = 0 := by omega
      have hc : ¬ c = 0 := by omega
      simp [finalStatus, hf, hc]

/-- A fresh batch with one pending payout: the witness run claims it,
completes it, and only then classifies. -/
def classifyDb : BatchDB :=
  { batch := { status := BStatus.pending, startedAt := none,
               completedAt := none, updatedAt := 0 },
    payouts :=
      [{ pid := 1, status := PStatus.pending, failureReason := none,
         attemptCount := 0, maxRetries := 3, attemptedAt := none,
         completedAt := none }] }

theorem processBatch_terminal_classification_witness :
    (processBatch 2 newPool false 0 100 (fun _ => XferResult.success)
        classifyDb).2.batch.status
      = finalStatus
          (completedCount
            (loopResult 2 newPool false 0 100 (fun _ => XferResult.success)
              classifyDb).1)
          (failedCount
            (loopResult 2 newPool false 0 100 (fun _ => XferResult.success)
              classifyDb).1) :=
  (processBatch_terminal_classification 2 newPool false 0 100
    (fun _ => XferResult.success) classifyDb rfl (by decide)).1

/-- `GetBatchPayouts` paging (handlers.go): `DefaultQuery("page_size",
"50")` then `strconv.Atoi`, then the range check `pageSize < 1 ||
pageSize > 200` replacing an out-of-range value with 50.  `none` models an
absent query parameter; a non-numeric parameter parses to 0 and is covered
by `some 0`. -/
def effectivePageSize (requested : Option Int) : Int :=
  let pageSize := requested.getD 50
  if pageSize < 1 ∨ 200 < pageSize then 50 else pageSize

/-- C8: the effective page size always lies in [1, 200]; an absent
page_size yields 50; and a requested value is kept iff it is in range,
otherwise it is replaced by 50 (which is in range). -/
theorem effectivePageSize_spec :
    (∀ requested : Option Int,
      1 ≤ effectivePageSize requested ∧ effectivePageSize requested ≤ 200)
    ∧ effectivePageSize none = 50
    ∧ (∀ n : Int, effectivePageSize (some n) =
        if n < 1 ∨ 200 < n then 50 else n) := by
  refine ⟨?_, rfl, fun n => rfl⟩
  intro r
  unfold effectivePageSize
  by_cases h : r.getD 50 < 1 ∨ 200 < r.getD 50
  · rw [if_pos h]
    exact ⟨by omega, by omega⟩
  · rw [if_neg h]
    push_neg at h
    exact ⟨by omega, by omega⟩

/-- The batch row right after its first transition to in_progress at time
1. -/
def startedBatch : BatchRow :=
  { status := BStatus.inProgress, startedAt := some 1, completedAt := none,
    updatedAt := 1 }

/-- C9 fails on the code: `UpdateBatchStatus` writes started_at = now on
EVERY transition to in_progress, so re-entering in_progress at time 2
overwrites the started_at = 1 recorded by the first transition (and
likewise a repeated terminal transition overwrites completed_at). -/
theorem updateBatchStatus_overwrites_startedAt :
    ¬ (updateBatchStatus 2 startedBatch BStatus.inProgress).startedAt = some 1
    ∧ ¬ (updateBatchStatus 2
          { status := BStatus.completed, startedAt := some 0,
            completedAt := some 1, updatedAt := 1 }
          BStatus.completed).completedAt = some 1 := by
  refine ⟨by decide, by decide⟩

/-- C9 amended: started_at is set to the current time on every transition
to in_progress (overwriting any earlier value), completed_at on every
transition to a terminal status; an in_progress transition leaves
completed_at alone, a terminal or pending transition leaves started_at
alone. -/
theorem updateBatchStatus_timestamps (now : Nat) (b : BatchRow) :
    (updateBatchStatus now b BStatus.inProgress).startedAt = some now
    ∧ (updateBatchStatus now b BStatus.completed).completedAt = some now
    ∧ (updateBatchStatus now b BStatus.failed).completedAt = some now
    ∧ (updateBatchStatus now b BStatus.partiallyCompleted).completedAt
        = some now
    ∧ (updateBatchStatus now b BStatus.inProgress).completedAt = b.completedAt
    ∧ (updateBatchStatus now b BStatus.completed).startedAt = b.startedAt
    ∧ (updateBatchStatus now b BStatus.pending).startedAt = b.startedAt :=
  ⟨rfl, rfl, rfl, rfl, rfl, rfl, rfl⟩

/-- C10: `Stop` while running closes the channel; a second `Stop` while
running panics (close of a closed channel); `Stop` while not running is a
no-op; and neither a successful `Stop` nor `ProcessBatch` ever re-opens a
closed channel. -/
theorem stopPool_one_shot (p : Pool) :
    (p.running = true → p.stopClosed = false →
      stopPool p = Except.ok { p with stopClosed := true })
    ∧ (p.running = true → p.stopClosed = true →
      stopPool p = Except.error "close of closed channel")
    ∧ (p.running = false → stopPool p = Except.ok p)
    ∧ (∀ q : Pool, stopPool p = Except.ok q → p.stopClosed = true →
        q.stopClosed = true)
    ∧ (∀ (fuel : Nat) (cancelled : Bool) (now chunkSize : Nat)
        (oracle : Nat → XferResult) (db : BatchDB),
        (processBatch fuel p cancelled now chunkSize oracle db).1.stopClosed
          = p.stopClosed) := by
  refine ⟨?_, ?_, ?_, ?_, ?_⟩
  · intro hr hs
    simp [stopPool, hr, hs]
  · intro hr hs
    simp [stopPool, hr, hs]
  · intro hr
    simp [stopPool, hr]
  · intro q hq hs
    unfold stopPool at hq
    by_cases hr : p.running
    · rw [if_pos hr, hs] at hq
      simp at hq
    · rw [if_neg hr] at hq
      cases hq
      exact hs
  · intro fuel cancelled now chunkSize oracle db
    by_cases hr : p.running
    · simp [processBatch, hr]
    · simp only [processBatch, hr, Bool.false_eq_true, if_false]
      split <;> rfl

theorem stopPool_one_shot_witness :
    stopPool { running := true, stopClosed := false } =
      Except.ok { running := true, stopClosed := true } :=
  (stopPool_one_shot { running := true, stopClosed := false }).1 rfl rfl

end PayoutEngine
